import Mathlib

/-
Shallow embedding of the azperm command-to-permission resolution engine.

Go strings are modelled as `List Char`; the Go standard-library string
helpers used by the code (strings.TrimSpace, HasPrefix, TrimPrefix,
Fields, Contains, HasSuffix, TrimSuffix, ToLower, Split, Count,
ReplaceAll, Join) are re-implemented below as total structural
functions.  ToLower is the ASCII restriction of Go's Unicode ToLower,
which coincides with it on every string occurring in the program's
tables.  Go maps are modelled as association lists read through
`lookupP` (first binding wins, i.e. the most recent `insertP` write);
where the Go code iterates over a map, the model iterates over the
association list in the source-code order of the map literal, and each
theorem below that depends on such an iteration is only invoked in
situations where at most one entry can match, so the unspecified Go
iteration order is immaterial.  Network, file-system and terminal
side effects (token acquisition, catalog HTTP fetch, permissions.json
persistence, colored printing) are external collaborators: functions
that consume their results take those results as explicit arguments.
-/

deriving instance DecidableEq for Except

/-- Go string modelled as a list of characters. -/
abbrev Str : Type := List Char

/-- Whitespace test used by strings.Fields / strings.TrimSpace
(ASCII subset of unicode.IsSpace). -/
def isWS (c : Char) : Bool := c = ' ' || c = '\t' || c = '\n' || c = '\r'

/-- strings.HasPrefix s pre. -/
def startsWithS : Str → Str → Bool
  | _, [] => true
  | [], _ :: _ => false
  | c :: cs, p :: ps => c = p && startsWithS cs ps

/-- strings.Contains s sub. -/
def containsS : Str → Str → Bool
  | [], sub => sub.isEmpty
  | c :: cs, sub => startsWithS (c :: cs) sub || containsS cs sub

/-- strings.HasSuffix s suf. -/
def endsWithS (s suf : Str) : Bool := startsWithS s.reverse suf.reverse

/-- ASCII lower-casing of one character (Go strings.ToLower restricted
to ASCII, which agrees with Go on all table entries of the program). -/
def charToLower (c : Char) : Char :=
  if c = 'A' then 'a' else if c = 'B' then 'b' else if c = 'C' then 'c'
  else if c = 'D' then 'd' else if c = 'E' then 'e' else if c = 'F' then 'f'
  else if c = 'G' then 'g' else if c = 'H' then 'h' else if c = 'I' then 'i'
  else if c = 'J' then 'j' else if c = 'K' then 'k' else if c = 'L' then 'l'
  else if c = 'M' then 'm' else if c = 'N' then 'n' else if c = 'O' then 'o'
  else if c = 'P' then 'p' else if c = 'Q' then 'q' else if c = 'R' then 'r'
  else if c = 'S' then 's' else if c = 'T' then 't' else if c = 'U' then 'u'
  else if c = 'V' then 'v' else if c = 'W' then 'w' else if c = 'X' then 'x'
  else if c = 'Y' then 'y' else if c = 'Z' then 'z' else c

/-- strings.ToLower. -/
def toLowerS (s : Str) : Str := s.map charToLower

/-- strings.TrimSpace. -/
def trimSpace (s : Str) : Str := ((s.dropWhile isWS).reverse.dropWhile isWS).reverse

/-- Accumulator-based worker for strings.Fields: `acc` is the word
currently being scanned. -/
def fieldsAux : Str → Str → List Str
  | [], acc => if acc = [] then [] else [acc]
  | c :: cs, acc =>
    if isWS c then (if acc = [] then fieldsAux cs [] else acc :: fieldsAux cs [])
    else fieldsAux cs (acc ++ [c])

/-- strings.Fields: split on runs of whitespace. -/
def fieldsS (s : Str) : List Str := fieldsAux s []

/-- Accumulator-based worker for strings.Split with a one-character
separator. -/
def splitOnAux (sep : Char) : Str → Str → List Str
  | [], acc => [acc]
  | c :: cs, acc => if c = sep then acc :: splitOnAux sep cs [] else splitOnAux sep cs (acc ++ [c])

/-- strings.Split s sep for a one-character separator. -/
def splitOnS (sep : Char) (s : Str) : List Str := splitOnAux sep s []

/-- strings.Count s sep for a one-character separator. -/
def countCharS (c : Char) (s : Str) : Nat := (s.filter (fun x => x = c)).length

/-- Go map read `m[k]` (with the comma-ok idiom): first binding wins. -/
def lookupP {α : Type} (m : List (Str × α)) (k : Str) : Option α :=
  (m.find? (fun e => e.1 = k)).map (fun e => e.2)

/-- Go map write `m[k] = v`: the new binding shadows any previous one
(reads through `lookupP` return the most recent write, exactly the Go
map-update semantics). -/
def insertP {α : Type} (m : List (Str × α)) (k : Str) (v : α) : List (Str × α) :=
  (k, v) :: m

/-- Insertion into a Go `map[string]bool` used as a set
(`permissionsSet[name] = true`): a key is stored at most once. -/
def insertSet (acc : List Str) (x : Str) : List Str :=
  if x ∈ acc then acc else acc ++ [x]

/-- strings.Join with separator " ". -/
def joinSpace : List Str → Str
  | [] => []
  | [t] => t
  | t :: r :: rs => t ++ ' ' :: joinSpace (r :: rs)

/-- The literal "--" used for flag tokens. -/
def dashdash : Str := ['-', '-']

/-- models.AzureCommand (internal/models/types.go). -/
structure AzureCommand where
  service : Str
  operation : Str
  parameters : List (Str × Str)
  fullCmd : Str
  deriving DecidableEq

/-- models.ConfidenceLevel (internal/models/types.go). -/
inductive ConfidenceLevel where
  | high
  | medium
  | low
  deriving DecidableEq

/-- models.PermissionMapping (internal/models/types.go). -/
structure PermissionMapping where
  commands : List (Str × List Str)
  lastUpdated : Str
  source : Str
  deriving DecidableEq

/-- permissions.Manager (internal/permissions/manager.go). -/
structure Manager where
  mappings : PermissionMapping
  deriving DecidableEq

/-- models.ProviderOperation (internal/models/types.go). -/
structure ProviderOperation where
  name : Str
  displayName : Str
  description : Str
  origin : Str
  isDataAction : Bool
  deriving DecidableEq

/-- models.ProviderResourceType (internal/models/types.go). -/
structure ProviderResourceType where
  name : Str
  displayName : Str
  operations : List ProviderOperation
  deriving DecidableEq

/-- models.ProviderOperationsResponse (internal/models/types.go);
the Namespace field carries json tag "id". -/
structure ProviderOperationsResponse where
  nspace : Str
  displayName : Str
  operations : List ProviderOperation
  resourceTypes : List ProviderResourceType
  deriving DecidableEq

/-- Parameter-parsing loop of parser.ParseAzureCommand
(internal/parser/command.go lines 38-52): a "--" token opens a
parameter; a following token not starting with "--" is consumed as its
value, otherwise the value is the empty string; tokens that are
neither are skipped. -/
def parseParams : List Str → List (Str × Str) → List (Str × Str)
  | [], m => m
  | t :: rest, m =>
    if startsWithS t dashdash then
      let name := t.drop 2
      match rest with
      | v :: rest2 =>
        if startsWithS v dashdash = false then parseParams rest2 (insertP m name v)
        else parseParams (v :: rest2) (insertP m name [])
      | [] => insertP m name []
    else parseParams rest m

/-- Tokens seen by the parser: trim whitespace, strip a leading
"az " prefix, split into fields (command.go lines 13-21). -/
def tokensOf (input : Str) : List Str :=
  let input1 := trimSpace input
  let input2 := if startsWithS input1 "az ".toList then input1.drop 3 else input1
  fieldsS input2

/-- parser.ParseAzureCommand (internal/parser/command.go). -/
def ParseAzureCommand (input : Str) : Except Str AzureCommand :=
  let parts := tokensOf input
  if parts.length < 2 then Except.error "invalid Azure CLI command format".toList
  else if 2 < parts.length ∧ startsWithS (parts.getD 2 []) dashdash = false then
    let service := parts.getD 0 [] ++ ' ' :: parts.getD 1 []
    let operation := parts.getD 2 []
    Except.ok ⟨service, operation, parseParams ((parts.drop 1).drop 2) [], service ++ ' ' :: operation⟩
  else
    let service := parts.getD 0 []
    let operation := parts.getD 1 []
    Except.ok ⟨service, operation, parseParams (parts.drop 2) [], service ++ ' ' :: operation⟩

/-- serviceMap of permissions.getResourceProviderForService
(manager.go lines 188-223), in source order. -/
def serviceProviderMap : List (Str × Str) :=
  [ ("group".toList, "Microsoft.Resources".toList)
  , ("vm".toList, "Microsoft.Compute".toList)
  , ("storage".toList, "Microsoft.Storage".toList)
  , ("webapp".toList, "Microsoft.Web".toList)
  , ("functionapp".toList, "Microsoft.Web".toList)
  , ("keyvault".toList, "Microsoft.KeyVault".toList)
  , ("network".toList, "Microsoft.Network".toList)
  , ("sql".toList, "Microsoft.Sql".toList)
  , ("aks".toList, "Microsoft.ContainerService".toList)
  , ("cosmosdb".toList, "Microsoft.DocumentDB".toList)
  , ("role".toList, "Microsoft.Authorization".toList)
  , ("ad".toList, "Microsoft.Graph".toList)
  , ("monitor".toList, "Microsoft.Insights".toList)
  , ("backup".toList, "Microsoft.RecoveryServices".toList)
  , ("cdn".toList, "Microsoft.Cdn".toList)
  , ("redis".toList, "Microsoft.Cache".toList)
  , ("servicebus".toList, "Microsoft.ServiceBus".toList)
  , ("eventhub".toList, "Microsoft.EventHub".toList)
  , ("iot".toList, "Microsoft.Devices".toList)
  , ("batch".toList, "Microsoft.Batch".toList)
  , ("hdinsight".toList, "Microsoft.HDInsight".toList)
  , ("search".toList, "Microsoft.Search".toList)
  , ("cognitiveservices".toList, "Microsoft.CognitiveServices".toList) ]

/-- permissions.getResourceProviderForService (manager.go): the first
table key contained in the service string wins; "" when none does.
Go iterates the map in unspecified order; the claims proved below only
apply this at services for which at most one key matches. -/
def getResourceProviderForService (service : Str) : Str :=
  match serviceProviderMap.find? (fun e => containsS service e.1) with
  | some e => e.2
  | none => []

/-- serviceMap of permissions.getResourceTypeForService
(manager.go lines 226-244). -/
def resourceTypeMap : List (Str × Str) :=
  [ ("group".toList, "subscriptions/resourceGroups".toList)
  , ("vm".toList, "virtualMachines".toList)
  , ("storage account".toList, "storageAccounts".toList)
  , ("storage blob".toList, "storageAccounts/blobServices".toList)
  , ("webapp".toList, "sites".toList)
  , ("functionapp".toList, "sites".toList)
  , ("keyvault".toList, "vaults".toList)
  , ("network vnet".toList, "virtualNetworks".toList)
  , ("network nsg".toList, "networkSecurityGroups".toList)
  , ("sql server".toList, "servers".toList)
  , ("sql db".toList, "servers/databases".toList)
  , ("aks".toList, "managedClusters".toList)
  , ("cosmosdb".toList, "databaseAccounts".toList)
  , ("role assignment".toList, "roleAssignments".toList)
  , ("role definition".toList, "roleDefinitions".toList)
  , ("ad user".toList, "users".toList) ]

/-- permissions.getResourceTypeForService (manager.go): exact table
lookup, then concatenation of the service words, then the raw
service. -/
def getResourceTypeForService (service : Str) : Str :=
  match lookupP resourceTypeMap service with
  | some rt => rt
  | none =>
    let parts := fieldsS service
    if 1 < parts.length then parts.foldl (fun a t => a ++ t) [] else service

/-- operationMap of permissions.suggestPermissionsByOperation
(manager.go lines 106-119). -/
def operationActionMap : List (Str × Str) :=
  [ ("create".toList, "write".toList)
  , ("update".toList, "write".toList)
  , ("set".toList, "write".toList)
  , ("delete".toList, "delete".toList)
  , ("remove".toList, "delete".toList)
  , ("list".toList, "read".toList)
  , ("show".toList, "read".toList)
  , ("get".toList, "read".toList)
  , ("start".toList, "start/action".toList)
  , ("stop".toList, "powerOff/action".toList)
  , ("restart".toList, "restart/action".toList)
  , ("scale".toList, "scale/action".toList) ]

/-- permissions.Manager.suggestPermissionsByOperation (manager.go
lines 104-132): verb table then {provider}/{resourceType}/{action}. -/
def Manager.suggestPermissionsByOperation (_m : Manager) (cmd : AzureCommand) : List Str :=
  match lookupP operationActionMap cmd.operation with
  | some action =>
    let resourceProvider := getResourceProviderForService cmd.service
    if resourceProvider = [] then []
    else
      let resourceType := getResourceTypeForService cmd.service
      [resourceProvider ++ '/' :: resourceType ++ '/' :: action]
  | none => []

/-- permissions.Manager.findPartialMatches (manager.go lines 83-101):
first cached key that starts with the service and contains the
operation; otherwise the heuristic suggestion.  Go iterates the
commands map in unspecified order; the claims below apply this only
to managers with at most one entry. -/
def Manager.findPartialMatches (m : Manager) (cmd : AzureCommand) : List Str :=
  let permissions :=
    match m.mappings.commands.find? (fun e => startsWithS e.1 cmd.service && containsS e.1 cmd.operation) with
    | some e => e.2
    | none => []
  if permissions = [] then Manager.suggestPermissionsByOperation m cmd else permissions

/-- permissions.Manager.GetPermissions (manager.go lines 67-80),
in state-passing form: the second component is the manager state after
the call (the Go method performs no writes). -/
def Manager.GetPermissions (m : Manager) (cmd : AzureCommand) :
    (List Str × ConfidenceLevel) × Manager :=
  match lookupP m.mappings.commands cmd.fullCmd with
  | some permissions => ((permissions, ConfidenceLevel.medium), m)
  | none =>
    let permissions := Manager.findPartialMatches m cmd
    if 0 < permissions.length then ((permissions, ConfidenceLevel.low), m)
    else (([], ConfidenceLevel.low), m)

/-- permissions.Manager.CachePermission (manager.go lines 145-154):
write-through of a live result into the commands map.  The
SavePermissions file write is an external side effect outside the
model (its error is ignored by the Go code). -/
def Manager.CachePermission (m : Manager) (command : Str) (permissions : List Str) : Manager :=
  { m with mappings := { m.mappings with commands := insertP m.mappings.commands command permissions } }

/-- cmd/cli.go getPermissions (lines 169-183), with the outcome of the
live tier (getLivePermissions: credential fetch + catalog fetch +
operation matching) passed in as an explicit argument.  On live
success the result is written through to the cache with confidence
High; on live failure the function prints an error banner and returns
an empty list with confidence Low WITHOUT consulting the Manager's
cached mappings. -/
def CLI.getPermissions (live : Except Str (List Str)) (m : Manager) (cmd : AzureCommand) :
    (List Str × ConfidenceLevel) × Manager :=
  match live with
  | Except.ok permissions =>
    if permissions = [] then (([], ConfidenceLevel.low), m)
    else ((permissions, ConfidenceLevel.high), Manager.CachePermission m cmd.fullCmd permissions)
  | Except.error _ => (([], ConfidenceLevel.low), m)

/-- main.go getRequiredPermissions (lines 410-425), with the tier-1
result (getDefinitivePermissions) passed in as an explicit argument:
tier-1 result if non-empty, else exact cache lookup, else partial
match / heuristic inference.  main.go's findPartialMatches and
suggestPermissionsByOperation duplicate the manager.go functions
verbatim, so the model reuses `Manager.findPartialMatches`. -/
def getRequiredPermissions (tier1 : List Str) (mapping : PermissionMapping) (cmd : AzureCommand) : List Str :=
  if tier1 = [] then
    match lookupP mapping.commands cmd.fullCmd with
    | some permissions => permissions
    | none => Manager.findPartialMatches ⟨mapping⟩ cmd
  else tier1

/-- serviceMap of cmd/cli.go mapServiceToProvider (lines 301-320). -/
def cliServiceMap : List (Str × Str) :=
  [ ("group".toList, "Microsoft.Resources".toList)
  , ("vm".toList, "Microsoft.Compute".toList)
  , ("storage".toList, "Microsoft.Storage".toList)
  , ("webapp".toList, "Microsoft.Web".toList)
  , ("keyvault".toList, "Microsoft.KeyVault".toList)
  , ("network".toList, "Microsoft.Network".toList)
  , ("sql".toList, "Microsoft.Sql".toList)
  , ("aks".toList, "Microsoft.ContainerService".toList)
  , ("role".toList, "Microsoft.Authorization".toList) ]

/-- cmd/cli.go mapServiceToProvider: first table key contained in the
service wins; "" when none does (Go map order unspecified; used below
only where at most one key matches). -/
def mapServiceToProvider (service : Str) : Str :=
  match cliServiceMap.find? (fun e => containsS service e.1) with
  | some e => e.2
  | none => []

/-- operationMap of cmd/cli.go matchesOperation (lines 522-536). -/
def operationMatchMap : List (Str × List Str) :=
  [ ("create".toList, ["write".toList, "create".toList])
  , ("update".toList, ["write".toList, "update".toList])
  , ("set".toList, ["write".toList, "set".toList, "setsecret".toList, "setkey".toList, "setcertificate".toList])
  , ("delete".toList, ["delete".toList, "remove".toList, "deletesecret".toList, "deletekey".toList, "deletecertificate".toList])
  , ("remove".toList, ["delete".toList, "remove".toList])
  , ("list".toList, ["read".toList, "list".toList, "getsecret".toList, "getkey".toList, "getcertificate".toList])
  , ("show".toList, ["read".toList, "get".toList, "getsecret".toList, "getkey".toList, "getcertificate".toList])
  , ("get".toList, ["read".toList, "get".toList, "getsecret".toList, "getkey".toList, "getcertificate".toList])
  , ("start".toList, ["start".toList])
  , ("stop".toList, ["poweroff".toList, "stop".toList])
  , ("restart".toList, ["restart".toList])
  , ("upload".toList, ["write".toList, "put".toList])
  , ("download".toList, ["read".toList, "get".toList]) ]

/-- cmd/cli.go matchesOperation (lines 512-563): direct containment,
verb-synonym table, then the "/action" suffix forms. -/
def matchesOperation (cmdOp apiOp : Str) : Bool :=
  let c := toLowerS cmdOp
  let a := toLowerS apiOp
  if containsS a c then true
  else
    let ms := (lookupP operationMatchMap c).getD []
    if ms.any (fun p => containsS a p) then true
    else if endsWithS a "/action".toList then
      let actionName := a.take (a.length - ("/action".toList).length)
      if containsS actionName c then true
      else ms.any (fun p => containsS actionName p)
    else false

/-- cmd/cli.go isDataPlaneOperation (lines 397-409): a service of two
or more whitespace-separated words is classified data-plane. -/
def isDataPlaneOperation (cmd : AzureCommand) : Bool :=
  let service := toLowerS cmd.service
  let serviceParts := fieldsS service
  decide (2 ≤ serviceParts.length)

/-- serviceAliases of cmd/cli.go matchesDataPlaneResourceType
(lines 426-430). -/
def serviceAliases : List (Str × List Str) :=
  [ ("keyvault".toList, ["vault".toList, "vaults".toList])
  , ("storage".toList, ["storageaccount".toList, "storageaccounts".toList])
  , ("cosmosdb".toList, ["documentdb".toList, "cosmos".toList]) ]

/-- Backward scan of cmd/cli.go matchesDataPlaneResourceType
(lines 469-482): walk the path segments from the end, remember the
last segment containing the sub-resource, stop early at an exact
`sub` / `sub ++ "s"` segment.  `acc` is the running
subResourcePosition, -1 when nothing has been found yet. -/
def scanGo (parts : List Str) (sub : Str) : Nat → Int → Int
  | 0, acc => acc
  | Nat.succ i, acc =>
    let part := parts.getD i []
    if containsS part sub then
      (if part = sub ∨ part = sub ++ ['s'] then (i : Int) else scanGo parts sub i (i : Int))
    else scanGo parts sub i acc

/-- cmd/cli.go matchesDataPlaneResourceType (lines 413-510).  The
caller passes service/operation/resourceType already lower-cased; the
function lower-cases resourceType and operation again as the source
does. -/
def matchesDataPlaneResourceType (service operation resourceType : Str) : Bool :=
  match fieldsS service with
  | baseService :: subResource :: _ =>
    let rtLower := toLowerS resourceType
    let serviceMatched :=
      match lookupP serviceAliases baseService with
      | some aliases => aliases.any (fun a => containsS rtLower a)
      | none => containsS rtLower baseService
    if serviceMatched = false then false
    else if containsS rtLower subResource = false then false
    else if countCharS '/' resourceType < 1 then false
    else
      let parts := splitOnS '/' rtLower
      let pos := scanGo parts subResource parts.length (-1)
      if pos < 0 then false
      else if pos < (parts.length : Int) - 2 then false
      else if containsS rtLower "insights".toList || containsS rtLower "monitoring".toList then
        if containsS (toLowerS operation) "monitor".toList = false ∧
           containsS (toLowerS operation) "metric".toList = false ∧
           containsS (toLowerS operation) "diagnostic".toList = false then false
        else true
      else true
  | _ => false

/-- serviceOperationToResourceTypes of cmd/cli.go matchesResourceType
(lines 333-378). -/
def controlPlaneTable : List (Str × List (Str × List Str)) :=
  [ ("group".toList,
      [ ("create".toList, ["subscriptions/resourcegroups".toList])
      , ("delete".toList, ["subscriptions/resourcegroups".toList])
      , ("list".toList, ["subscriptions/resourcegroups".toList])
      , ("show".toList, ["subscriptions/resourcegroups".toList]) ])
  , ("vm".toList,
      [ ("create".toList, ["virtualmachines".toList])
      , ("delete".toList, ["virtualmachines".toList])
      , ("start".toList, ["virtualmachines".toList])
      , ("stop".toList, ["virtualmachines".toList])
      , ("restart".toList, ["virtualmachines".toList])
      , ("list".toList, ["virtualmachines".toList])
      , ("show".toList, ["virtualmachines".toList, "virtualmachines/instanceview".toList]) ])
  , ("storage".toList,
      [ ("create".toList, ["storageaccounts".toList])
      , ("delete".toList, ["storageaccounts".toList])
      , ("list".toList, ["storageaccounts".toList])
      , ("show".toList, ["storageaccounts".toList]) ])
  , ("webapp".toList,
      [ ("create".toList, ["sites".toList])
      , ("delete".toList, ["sites".toList])
      , ("list".toList, ["sites".toList])
      , ("show".toList, ["sites".toList])
      , ("start".toList, ["sites".toList])
      , ("stop".toList, ["sites".toList])
      , ("restart".toList, ["sites".toList]) ])
  , ("keyvault".toList,
      [ ("create".toList, ["vaults".toList])
      , ("delete".toList, ["vaults".toList])
      , ("list".toList, ["vaults".toList])
      , ("show".toList, ["vaults".toList]) ])
  , ("aks".toList,
      [ ("create".toList, ["managedclusters".toList])
      , ("delete".toList, ["managedclusters".toList])
      , ("list".toList, ["managedclusters".toList])
      , ("show".toList, ["managedclusters".toList])
      , ("start".toList, ["managedclusters".toList])
      , ("stop".toList, ["managedclusters".toList]) ])
  ]

/-- cmd/cli.go matchesResourceType (lines 322-393): data-plane
commands go through the structural matcher, control-plane commands
through the exact normalized table. -/
def matchesResourceType (cmd : AzureCommand) (resourceType : Str) : Bool :=
  let service := toLowerS cmd.service
  let resType := toLowerS resourceType
  let operation := toLowerS cmd.operation
  if isDataPlaneOperation cmd then matchesDataPlaneResourceType service operation resType
  else
    match lookupP controlPlaneTable service with
    | some serviceOps =>
      match lookupP serviceOps operation with
      | some resourceTypes =>
        let normalizedResType := resType.filter (fun ch => ¬ (ch = '/'))
        resourceTypes.any (fun pat => normalizedResType = pat.filter (fun ch => ¬ (ch = '/')))
      | none => false
    | none => false

/-- operationMap of cmd/cli.go suggestOperationsFromLiveData
(lines 582-594). -/
def suggestOperationMap : List (Str × List Str) :=
  [ ("create".toList, ["write".toList])
  , ("update".toList, ["write".toList])
  , ("set".toList, ["write".toList])
  , ("delete".toList, ["delete".toList])
  , ("remove".toList, ["delete".toList])
  , ("list".toList, ["read".toList])
  , ("show".toList, ["read".toList])
  , ("get".toList, ["read".toList])
  , ("start".toList, ["start".toList])
  , ("stop".toList, ["poweroff".toList, "stop".toList])
  , ("restart".toList, ["restart".toList]) ]

/-- cmd/cli.go suggestOperationsFromLiveData (lines 565-618): pick the
first structurally matching resource type (or the catalog's first),
append its operations once per matching verb pattern, and fall back to
its first "read" operation. -/
def suggestOperationsFromLiveData (cmd : AzureCommand) (providerOps : ProviderOperationsResponse) : List Str :=
  let best :=
    match providerOps.resourceTypes.find? (fun rt => matchesResourceType cmd rt.name) with
    | some rt => some rt
    | none => providerOps.resourceTypes.head?
  match best with
  | none => []
  | some rt =>
    let suggestions :=
      match lookupP suggestOperationMap (toLowerS cmd.operation) with
      | some pats =>
        rt.operations.foldl
          (fun acc op => acc ++ (pats.filter (fun pat => containsS (toLowerS op.name) pat)).map (fun _ => op.name)) []
      | none => []
    if suggestions = [] then
      match rt.operations.find? (fun op => containsS (toLowerS op.name) "read".toList) with
      | some op => [op.name]
      | none => []
    else suggestions

/-- Exact-match collection phase of cmd/cli.go
findOperationsForCommand (lines 247-284): provider-level operations
then matching resource types' operations, deduplicated through the
permissionsSet map. -/
def collectExactMatches (cmd : AzureCommand) (providerOps : ProviderOperationsResponse) : List Str :=
  let s1 := providerOps.operations.foldl
    (fun acc op => if matchesOperation cmd.operation op.name then insertSet acc op.name else acc) []
  providerOps.resourceTypes.foldl
    (fun acc rt =>
      if matchesResourceType cmd rt.name then
        rt.operations.foldl
          (fun acc2 op => if matchesOperation cmd.operation op.name then insertSet acc2 op.name else acc2) acc
      else acc) s1

/-- cmd/cli.go findOperationsForCommand (lines 227-298): map the
service to a provider, look the provider up in the fetched catalog
map, collect exact matches, and fall back to the suggestion pass when
empty. -/
def findOperationsForCommand (cmd : AzureCommand) (operations : List (Str × ProviderOperationsResponse)) :
    Except Str (List Str) :=
  let provider := mapServiceToProvider cmd.service
  if provider = [] then Except.error ("unknown service: ".toList ++ cmd.service)
  else
    match lookupP operations provider with
    | none => Except.error ("provider not found: ".toList ++ provider)
    | some providerOps =>
      let permissions := collectExactMatches cmd providerOps
      if permissions = [] then Except.ok (suggestOperationsFromLiveData cmd providerOps)
      else Except.ok permissions

/-- Well-formedness of one whitespace-free non-empty token. -/
def tokOkB (t : Str) : Bool := (¬ t.isEmpty) && t.all (fun c => isWS c = false)

/-- Well-formedness of one "--k v" / "--k" flag: the key is
whitespace-free; an explicit value is a well-formed token not starting
with "--". -/
def flagOk (f : Str × Option Str) : Bool :=
  f.1.all (fun c => isWS c = false) &&
  (match f.2 with
   | some v => tokOkB v && startsWithS v dashdash = false
   | none => true)

/-- Token rendering of a flag list: "--k v" contributes two tokens,
"--k" one. -/
def flagTokens : List (Str × Option Str) → List Str
  | [] => []
  | (k, some v) :: fs => (dashdash ++ k) :: v :: flagTokens fs
  | (k, none) :: fs => (dashdash ++ k) :: flagTokens fs

/-- Raw input "az {service} {operation} [--k v]*". -/
def mkInput (svc op : Str) (flags : List (Str × Option Str)) : Str :=
  "az ".toList ++ joinSpace (svc :: op :: flagTokens flags)

/-- One parameter-map insertion for a flag (value "" when absent). -/
def insertFlag (m : List (Str × Str)) (f : Str × Option Str) : List (Str × Str) :=
  insertP m f.1 (f.2.getD [])

/-- Value of the LAST occurrence of key `k` in a flag list (absent
value read as ""), i.e. the later-duplicates-override semantics. -/
def lastVal (flags : List (Str × Option Str)) (k : Str) : Option Str :=
  (flags.reverse.find? (fun f => f.1 = k)).map (fun f => f.2.getD [])

/-- Manager with an empty commands map (permissions.NewManager). -/
def emptyMgr : Manager := ⟨⟨[], [], []⟩⟩

/-- Parsed "az group create". -/
def cmdGroupCreate : AzureCommand :=
  ⟨"group".toList, "create".toList, [], "group create".toList⟩

/-- Parsed "az vm stop". -/
def cmdVmStop : AzureCommand :=
  ⟨"vm".toList, "stop".toList, [], "vm stop".toList⟩

/-- Parsed "az vm start". -/
def cmdVmStart : AzureCommand :=
  ⟨"vm".toList, "start".toList, [], "vm start".toList⟩

/-- Manager whose cache maps "vm start" to the one-element permission
list ["x"]. -/
def mgrVmStartX : Manager := ⟨⟨[("vm start".toList, ["x".toList])], [], []⟩⟩

/-- Catalog operation named "stoppoweroff" (matches both "poweroff"
and "stop" suggestion patterns). -/
def opStopPoweroff : ProviderOperation := ⟨"stoppoweroff".toList, [], [], [], false⟩

/-- Catalog resource type that matches no control-plane pattern. -/
def rtWhatever : ProviderResourceType := ⟨"whatever".toList, [], [opStopPoweroff]⟩

/-- Microsoft.Compute catalog with no provider-level operations and a
single non-matching resource type. -/
def catC6 : ProviderOperationsResponse := ⟨[], [], [], [rtWhatever]⟩

/-- Fetched-operations map containing only the catalog above. -/
def opsC6 : List (Str × ProviderOperationsResponse) := [("Microsoft.Compute".toList, catC6)]

/-- Reading back a Go-map write: the written key returns the new
value, any other key is untouched. -/
theorem lookupP_insertP {α : Type} (m : List (Str × α)) (k : Str) (v : α) (q : Str) :
    lookupP (insertP m k v) q = if q = k then some v else lookupP m q := by
  unfold lookupP insertP
  by_cases h : q = k
  · subst h; simp [List.find?_cons]
  · have h2 : ¬ (k = q) := fun hh => h hh.symm
    simp [List.find?_cons, h2, h]

/-- Claim C10: the read-only fallback tiers never mutate cache state —
Manager.GetPermissions (exact lookup, partial match and heuristic
inference) returns the manager unchanged, while an explicit
CachePermission call rebinds exactly the written command key and
leaves every other key's binding unchanged. -/
theorem claim_C10 :
    (∀ (m : Manager) (cmd : AzureCommand), (Manager.GetPermissions m cmd).2 = m) ∧
    (∀ (m : Manager) (k : Str) (ps : List Str) (q : Str),
      lookupP (Manager.CachePermission m k ps).mappings.commands q =
        if q = k then some ps else lookupP m.mappings.commands q) := by
  constructor
  · intro m cmd
    unfold Manager.GetPermissions
    split
    · rfl
    · dsimp only
      split <;> rfl
  · intro m k ps q
    unfold Manager.CachePermission
    exact lookupP_insertP m.mappings.commands k ps q

/-- Claim C9: every Command the parser produces has
fullCommand = service ++ " " ++ operation. -/
theorem claim_C9 : ∀ (input : Str) (cmd : AzureCommand),
    ParseAzureCommand input = Except.ok cmd →
    cmd.fullCmd = cmd.service ++ ' ' :: cmd.operation := by
  intro input cmd h
  simp only [ParseAzureCommand] at h
  split at h
  · exact Except.noConfusion h
  · split at h <;> (injection h with h2; subst h2; rfl)

/-- Witness for C9 at the parsed command of "az group create". -/
theorem claim_C9_witness :
    (AzureCommand.mk "group".toList "create".toList [] "group create".toList).fullCmd =
      (AzureCommand.mk "group".toList "create".toList [] "group create".toList).service ++
        ' ' :: (AzureCommand.mk "group".toList "create".toList [] "group create".toList).operation :=
  claim_C9 "az group create".toList
    (AzureCommand.mk "group".toList "create".toList [] "group create".toList) (by decide)

/-- ASCII lower-casing preserves whitespace-ness. -/
theorem isWS_charToLower (c : Char) : isWS (charToLower c) = isWS c := by
  unfold charToLower
  by_cases h1 : c = 'A'
  · subst h1; decide
  rw [if_neg h1]
  by_cases h2 : c = 'B'
  · subst h2; decide
  rw [if_neg h2]
  by_cases h3 : c = 'C'
  · subst h3; decide
  rw [if_neg h3]
  by_cases h4 : c = 'D'
  · subst h4; decide
  rw [if_neg h4]
  by_cases h5 : c = 'E'
  · subst h5; decide
  rw [if_neg h5]
  by_cases h6 : c = 'F'
  · subst h6; decide
  rw [if_neg h6]
  by_cases h7 : c = 'G'
  · subst h7; decide
  rw [if_neg h7]
  by_cases h8 : c = 'H'
  · subst h8; decide
  rw [if_neg h8]
  by_cases h9 : c = 'I'
  · subst h9; decide
  rw [if_neg h9]
  by_cases h10 : c = 'J'
  · subst h10; decide
  rw [if_neg h10]
  by_cases h11 : c = 'K'
  · subst h11; decide
  rw [if_neg h11]
  by_cases h12 : c = 'L'
  · subst h12; decide
  rw [if_neg h12]
  by_cases h13 : c = 'M'
  · subst h13; decide
  rw [if_neg h13]
  by_cases h14 : c = 'N'
  · subst h14; decide
  rw [if_neg h14]
  by_cases h15 : c = 'O'
  · subst h15; decide
  rw [if_neg h15]
  by_cases h16 : c = 'P'
  · subst h16; decide
  rw [if_neg h16]
  by_cases h17 : c = 'Q'
  · subst h17; decide
  rw [if_neg h17]
  by_cases h18 : c = 'R'
  · subst h18; decide
  rw [if_neg h18]
  by_cases h19 : c = 'S'
  · subst h19; decide
  rw [if_neg h19]
  by_cases h20 : c = 'T'
  · subst h20; decide
  rw [if_neg h20]
  by_cases h21 : c = 'U'
  · subst h21; decide
  rw [if_neg h21]
  by_cases h22 : c = 'V'
  · subst h22; decide
  rw [if_neg h22]
  by_cases h23 : c = 'W'
  · subst h23; decide
  rw [if_neg h23]
  by_cases h24 : c = 'X'
  · subst h24; decide
  rw [if_neg h24]
  by_cases h25 : c = 'Y'
  · subst h25; decide
  rw [if_neg h25]
  by_cases h26 : c = 'Z'
  · subst h26; decide
  rw [if_neg h26]

/-- Lower-casing a string does not change how many fields it has. -/
theorem fieldsAux_map_length (s : Str) :
    ∀ acc : Str, (fieldsAux (toLowerS s) (toLowerS acc)).length = (fieldsAux s acc).length := by
  induction s with
  | nil =>
    intro acc
    by_cases h : acc = [] <;> simp [fieldsAux, toLowerS, h]
  | cons c cs ih =>
    intro acc
    simp only [toLowerS, List.map_cons]
    show (fieldsAux (charToLower c :: cs.map charToLower) (acc.map charToLower)).length = _
    simp only [fieldsAux]
    rw [isWS_charToLower]
    by_cases hws : isWS c = true
    · by_cases hacc : acc = []
      · subst hacc
        simpa [hws, toLowerS] using ih []
      · have hacc2 : ¬ acc.map charToLower = [] := by simpa using hacc
        simp only [hws, if_true, if_neg hacc, if_neg hacc2, List.length_cons]
        have := ih ([] : Str)
        simp only [toLowerS, List.map_nil] at this
        omega
    · have hws2 : isWS c = false := by revert hws; cases isWS c <;> simp
      have := ih (acc ++ [c])
      simp only [toLowerS, List.map_append, List.map_cons, List.map_nil] at this
      simpa [hws2] using this

/-- Claim C7: the Operation Matcher classifies a command as data-plane
exactly when its service string contains two or more
whitespace-separated words. -/
theorem claim_C7 : ∀ cmd : AzureCommand,
    isDataPlaneOperation cmd = true ↔ 2 ≤ (fieldsS cmd.service).length := by
  intro cmd
  unfold isDataPlaneOperation fieldsS
  rw [decide_eq_true_iff]
  have h := fieldsAux_map_length cmd.service ([] : Str)
  rw [show toLowerS ([] : Str) = [] from rfl] at h
  rw [h]

/-- Claim C1 (amended): an exact cache hit is returned unchanged with
confidence Medium by the fallback resolver Manager.GetPermissions, and
the legacy main.go pipeline returns it unchanged when tier 1 yields
nothing; but the cmd/cli.go pipeline does not fall through to the
cache on live-tier failure — its getPermissions returns an empty list
with confidence Low (the failure is then surfaced by Run as an
error). -/
theorem claim_C1 :
    ∀ (m : Manager) (cmd : AzureCommand) (ps : List Str) (e : Str),
      lookupP m.mappings.commands cmd.fullCmd = some ps →
      (Manager.GetPermissions m cmd).1 = (ps, ConfidenceLevel.medium) ∧
      (CLI.getPermissions (Except.error e) m cmd).1 = ([], ConfidenceLevel.low) ∧
      getRequiredPermissions [] m.mappings cmd = ps := by
  intro m cmd ps e h
  refine ⟨?_, rfl, ?_⟩
  · unfold Manager.GetPermissions
    rw [h]
  · unfold getRequiredPermissions
    rw [if_pos rfl, h]

/-- Counterexample to claim C1 as stated: with "vm start" cached to a
non-empty permission list and the live tier failing, the cmd/cli.go
resolution returns an empty list with confidence Low — not the cached
list with confidence Medium. -/
theorem claim_C1_counterexample :
    lookupP mgrVmStartX.mappings.commands cmdVmStart.fullCmd = some ["x".toList] ∧
    ¬ (["x".toList] : List Str) = [] ∧
    (CLI.getPermissions (Except.error "network error".toList) mgrVmStartX cmdVmStart).1 =
      ([], ConfidenceLevel.low) ∧
    ¬ (CLI.getPermissions (Except.error "network error".toList) mgrVmStartX cmdVmStart).1 =
      (["x".toList], ConfidenceLevel.medium) :=
  ⟨by decide, by decide, rfl, by decide⟩

/-- Witness for C1 (amended) at the "vm start" cache entry. -/
theorem claim_C1_witness :
    (Manager.GetPermissions mgrVmStartX cmdVmStart).1 = (["x".toList], ConfidenceLevel.medium) ∧
    (CLI.getPermissions (Except.error "net".toList) mgrVmStartX cmdVmStart).1 =
      ([], ConfidenceLevel.low) ∧
    getRequiredPermissions [] mgrVmStartX.mappings cmdVmStart = ["x".toList] :=
  claim_C1 mgrVmStartX cmdVmStart ["x".toList] "net".toList (by decide)

/-- Claim C4: the heuristic tier maps the operation through the fixed
verb table and synthesizes {provider}/{resourceType}/{action}; in
particular, with an empty cache and a failing live tier (so that
resolution reaches the Manager fallback stack), "group create"
resolves to exactly Microsoft.Resources/subscriptions/resourceGroups/write
and "vm stop" to a permission containing "powerOff/action". -/
theorem claim_C4 :
    (∀ (m : Manager) (cmd : AzureCommand) (action : Str),
      lookupP operationActionMap cmd.operation = some action →
      ¬ getResourceProviderForService cmd.service = [] →
      Manager.suggestPermissionsByOperation m cmd =
        [getResourceProviderForService cmd.service ++ '/' ::
          (getResourceTypeForService cmd.service ++ '/' :: action)]) ∧
    ((Manager.GetPermissions emptyMgr cmdGroupCreate).1).1 =
      ["Microsoft.Resources/subscriptions/resourceGroups/write".toList] ∧
    ((Manager.GetPermissions emptyMgr cmdVmStop).1).1 =
      ["Microsoft.Compute/virtualMachines/powerOff/action".toList] ∧
    containsS "Microsoft.Compute/virtualMachines/powerOff/action".toList
      "powerOff/action".toList = true := by
  refine ⟨?_, by decide, by decide, by decide⟩
  intro m cmd action h1 h2
  unfold Manager.suggestPermissionsByOperation
  rw [h1]
  simp [h2]

/-- Witness for the general conjunct of C4 at "group create". -/
theorem claim_C4_witness :
    Manager.suggestPermissionsByOperation emptyMgr cmdGroupCreate =
      [getResourceProviderForService cmdGroupCreate.service ++ '/' ::
        (getResourceTypeForService cmdGroupCreate.service ++ '/' :: "write".toList)] :=
  claim_C4.1 emptyMgr cmdGroupCreate "write".toList (by decide) (by decide)

/-- Claim C5: with an empty cache, a command whose service has no
resource-provider entry, or whose operation is outside the verb
table, resolves to an empty permission list (no error is raised — the
functions are total and the cli.go pipeline likewise returns an empty
list on live failure). -/
theorem claim_C5 :
    (∀ cmd : AzureCommand,
      getResourceProviderForService cmd.service = [] ∨
        lookupP operationActionMap cmd.operation = none →
      ((Manager.GetPermissions emptyMgr cmd).1).1 = []) ∧
    (∀ (e : Str) (m : Manager) (cmd : AzureCommand),
      ((CLI.getPermissions (Except.error e) m cmd).1).1 = []) := by
  constructor
  · intro cmd h
    have hsugg : Manager.suggestPermissionsByOperation emptyMgr cmd = [] := by
      unfold Manager.suggestPermissionsByOperation
      rcases h with h | h
      · cases hop : lookupP operationActionMap cmd.operation with
        | none => simp [hop]
        | some a => simp [hop, h]
      · simp [h]
    have hpart : Manager.findPartialMatches emptyMgr cmd = [] := by
      unfold Manager.findPartialMatches
      simpa [emptyMgr] using hsugg
    unfold Manager.GetPermissions
    rw [show lookupP emptyMgr.mappings.commands cmd.fullCmd = none from rfl]
    simp [hpart]
  · intro e m cmd
    rfl

/-- Witness for C5 at the unknown service "zzz". -/
theorem claim_C5_witness :
    ((Manager.GetPermissions emptyMgr
        (AzureCommand.mk "zzz".toList "create".toList [] "zzz create".toList)).1).1 = [] :=
  claim_C5.1 (AzureCommand.mk "zzz".toList "create".toList [] "zzz create".toList)
    (Or.inl (by decide))

/-- insertSet keeps the collected permission list duplicate-free. -/
theorem insertSet_nodup (acc : List Str) (x : Str) (h : acc.Nodup) : (insertSet acc x).Nodup := by
  unfold insertSet
  split
  · exact h
  · rename_i hx
    simp [List.nodup_append, h, hx]

/-- A fold whose step preserves Nodup preserves Nodup. -/
theorem foldl_nodup {β : Type} (g : List Str → β → List Str)
    (hg : ∀ acc x, acc.Nodup → (g acc x).Nodup) :
    ∀ (l : List β) (acc : List Str), acc.Nodup → (l.foldl g acc).Nodup := by
  intro l
  induction l with
  | nil => intro acc h; exact h
  | cons b t ih =>
    intro acc h
    rw [List.foldl_cons]
    exact ih (g acc b) (hg acc b h)

/-- Claim C6 (amended): the exact-match phase of the Operation Matcher
collects permissions into a set and therefore never contains a
duplicate name (findOperationsForCommand returns this collection
whenever it is non-empty); only the suggestion fallback pass can
return duplicates. -/
theorem claim_C6 : ∀ (cmd : AzureCommand) (providerOps : ProviderOperationsResponse),
    (collectExactMatches cmd providerOps).Nodup := by
  intro cmd pOps
  unfold collectExactMatches
  apply foldl_nodup
  · intro acc rt h
    split
    · apply foldl_nodup
      · intro acc2 op h2
        split
        · exact insertSet_nodup acc2 op.name h2
        · exact h2
      · exact h
    · exact h
  · apply foldl_nodup
    · intro acc op h
      split
      · exact insertSet_nodup acc op.name h
      · exact h
    · exact List.nodup_nil

/-- Counterexample to claim C6 as stated: on "vm stop" against a
catalog whose only resource type matches nothing exactly, the
suggestion fallback appends the operation "stoppoweroff" once for the
"poweroff" pattern and once for the "stop" pattern, so
findOperationsForCommand returns a list with a duplicate name. -/
theorem claim_C6_counterexample :
    findOperationsForCommand cmdVmStop opsC6 =
      Except.ok ["stoppoweroff".toList, "stoppoweroff".toList] ∧
    ¬ (["stoppoweroff".toList, "stoppoweroff".toList] : List Str).Nodup :=
  ⟨by decide, by decide⟩

/-- What the backward scan of matchesDataPlaneResourceType can return:
either the accumulator it started from, or an index below `n` whose
path segment contains the sub-resource word. -/
theorem scanGo_spec (parts : List Str) (sub : Str) :
    ∀ (n : Nat) (acc : Int), scanGo parts sub n acc = acc ∨
      ∃ i : Nat, i < n ∧ scanGo parts sub n acc = (i : Int) ∧
        containsS (parts.getD i []) sub = true := by
  intro n
  induction n with
  | zero => intro acc; left; rfl
  | succ i ih =>
    intro acc
    simp only [scanGo]
    split
    · rename_i hc
      split
      · right; exact ⟨i, Nat.lt_succ_self i, rfl, hc⟩
      · rcases ih (i : Int) with h | ⟨j, hj, hjj, hcj⟩
        · right; exact ⟨i, Nat.lt_succ_self i, h, hc⟩
        · right; exact ⟨j, Nat.lt_succ_of_lt hj, hjj, hcj⟩
    · rcases ih acc with h | ⟨j, hj, hjj, hcj⟩
      · left; exact h
      · right; exact ⟨j, Nat.lt_succ_of_lt hj, hjj, hcj⟩

/-- Claim C8: a data-plane resource type matches only if its name
contains the base-service name or a known alias, contains the
sub-resource word, has hierarchy depth at least 1, has the
sub-resource word occurring within the last two path segments, and —
unless the operation mentions monitor/metric/diagnostic — contains
neither "insights" nor "monitoring". -/
theorem claim_C8 :
    ∀ (service operation resourceType : Str),
      matchesDataPlaneResourceType service operation resourceType = true →
      ∃ baseService subResource rest,
        fieldsS service = baseService :: subResource :: rest ∧
        (containsS (toLowerS resourceType) baseService = true ∨
          ∃ a ∈ ((lookupP serviceAliases baseService).getD []),
            containsS (toLowerS resourceType) a = true) ∧
        containsS (toLowerS resourceType) subResource = true ∧
        1 ≤ countCharS '/' resourceType ∧
        (∃ i : Nat, i < (splitOnS '/' (toLowerS resourceType)).length ∧
          (splitOnS '/' (toLowerS resourceType)).length ≤ i + 2 ∧
          containsS ((splitOnS '/' (toLowerS resourceType)).getD i []) subResource = true) ∧
        ((containsS (toLowerS resourceType) "insights".toList = false ∧
          containsS (toLowerS resourceType) "monitoring".toList = false) ∨
          containsS (toLowerS operation) "monitor".toList = true ∨
          containsS (toLowerS operation) "metric".toList = true ∨
          containsS (toLowerS operation) "diagnostic".toList = true) := by
  intro service operation resourceType h
  unfold matchesDataPlaneResourceType at h
  rcases hf : fieldsS service with _ | ⟨b, _ | ⟨s, rest⟩⟩
  · rw [hf] at h; simp at h
  · rw [hf] at h; simp at h
  · rw [hf] at h
    dsimp only at h
    split_ifs at h with h1 h2 h3 h4 h5 h6 h7 <;> try simp at h
    -- two surviving leaves: insights branch with a monitoring mention,
    -- and the branch with no insights/monitoring occurrence
    · simp only [Bool.not_eq_false] at h1 h2
      refine ⟨b, s, rest, rfl, ?_, h2, by omega, ?_, ?_⟩
      · rcases hA : lookupP serviceAliases b with _ | als
        · rw [hA] at h1; left; exact h1
        · rw [hA] at h1
          right
          simp only [Option.getD_some]
          exact List.any_eq_true.mp h1
      · rcases scanGo_spec (splitOnS '/' (toLowerS resourceType)) s
          (splitOnS '/' (toLowerS resourceType)).length (-1) with hs | ⟨i, hi, heq, hci⟩
        · rw [hs] at h4; omega
        · rw [heq] at h4 h5
          exact ⟨i, hi, by omega, hci⟩
      · right
        by_cases hA : containsS (toLowerS operation) "monitor".toList = true
        · exact Or.inl hA
        · by_cases hB : containsS (toLowerS operation) "metric".toList = true
          · exact Or.inr (Or.inl hB)
          · by_cases hC : containsS (toLowerS operation) "diagnostic".toList = true
            · exact Or.inr (Or.inr hC)
            · exact absurd ⟨Bool.not_eq_true _ ▸ by revert hA; cases containsS (toLowerS operation) "monitor".toList <;> simp,
                by revert hB; cases containsS (toLowerS operation) "metric".toList <;> simp,
                by revert hC; cases containsS (toLowerS operation) "diagnostic".toList <;> simp⟩ h7
    · simp only [Bool.not_eq_false] at h1 h2
      simp only [Bool.or_eq_true, not_or, Bool.not_eq_true] at h6
      refine ⟨b, s, rest, rfl, ?_, h2, by omega, ?_, Or.inl ⟨h6.1, h6.2⟩⟩
      · rcases hA : lookupP serviceAliases b with _ | als
        · rw [hA] at h1; left; exact h1
        · rw [hA] at h1
          right
          simp only [Option.getD_some]
          exact List.any_eq_true.mp h1
      · rcases scanGo_spec (splitOnS '/' (toLowerS resourceType)) s
          (splitOnS '/' (toLowerS resourceType)).length (-1) with hs | ⟨i, hi, heq, hci⟩
        · rw [hs] at h4; omega
        · rw [heq] at h4 h5
          exact ⟨i, hi, by omega, hci⟩

/-- Witness for C8 at the "storage blob" data-plane match of
storageAccounts/blobServices/containers/blobs. -/
theorem claim_C8_witness :
    ∃ baseService subResource rest,
      fieldsS "storage blob".toList = baseService :: subResource :: rest ∧
      (containsS (toLowerS "storageaccounts/blobservices/containers/blobs".toList) baseService = true ∨
        ∃ a ∈ ((lookupP serviceAliases baseService).getD []),
          containsS (toLowerS "storageaccounts/blobservices/containers/blobs".toList) a = true) ∧
      containsS (toLowerS "storageaccounts/blobservices/containers/blobs".toList) subResource = true ∧
      1 ≤ countCharS '/' "storageaccounts/blobservices/containers/blobs".toList ∧
      (∃ i : Nat, i < (splitOnS '/' (toLowerS "storageaccounts/blobservices/containers/blobs".toList)).length ∧
        (splitOnS '/' (toLowerS "storageaccounts/blobservices/containers/blobs".toList)).length ≤ i + 2 ∧
        containsS ((splitOnS '/' (toLowerS "storageaccounts/blobservices/containers/blobs".toList)).getD i [])
          subResource = true) ∧
      ((containsS (toLowerS "storageaccounts/blobservices/containers/blobs".toList) "insights".toList = false ∧
        containsS (toLowerS "storageaccounts/blobservices/containers/blobs".toList) "monitoring".toList = false) ∨
        containsS (toLowerS "upload".toList) "monitor".toList = true ∨
        containsS (toLowerS "upload".toList) "metric".toList = true ∨
        containsS (toLowerS "upload".toList) "diagnostic".toList = true) :=
  claim_C8 "storage blob".toList "upload".toList
    "storageaccounts/blobservices/containers/blobs".toList (by decide)


/-- A flag list renders to no tokens or to a token starting with "--". -/
theorem flagTokens_shape (flags : List (Str × Option Str)) :
    flagTokens flags = [] ∨ ∃ k t, flagTokens flags = (dashdash ++ k) :: t := by
  cases flags with
  | nil => left; rfl
  | cons f fs =>
    right
    rcases f with ⟨k, v⟩
    cases v with
    | none => exact ⟨k, flagTokens fs, rfl⟩
    | some w => exact ⟨k, w :: flagTokens fs, rfl⟩

/-- Only the empty flag list renders to no tokens. -/
theorem flagTokens_eq_nil (flags : List (Str × Option Str)) (h : flagTokens flags = []) :
    flags = [] := by
  cases flags with
  | nil => rfl
  | cons f fs =>
    exfalso
    rcases f with ⟨k, v⟩
    cases v with
    | none => simp [flagTokens] at h
    | some w => simp [flagTokens] at h

/-- A string starts with any of its own initial segments. -/
theorem startsWithS_append_self (p s : Str) : startsWithS (p ++ s) p = true := by
  induction p with
  | nil => simp [startsWithS]
  | cons c cs ih => simp [startsWithS, ih]

/-- Every token a well-formed flag list renders to is non-empty and
whitespace-free. -/
theorem flagTokens_tokens : ∀ (flags : List (Str × Option Str)),
    flags.all flagOk = true →
    ∀ t ∈ flagTokens flags, t ≠ [] ∧ ∀ c ∈ t, isWS c = false := by
  intro flags
  induction flags with
  | nil => intro _ t ht; simp [flagTokens] at ht
  | cons f fs ih =>
    intro h t ht
    rcases f with ⟨k, v⟩
    have hf : flagOk (k, v) = true := by
      simp only [List.all_cons, Bool.and_eq_true] at h; exact h.1
    have hfs : fs.all flagOk = true := by
      simp only [List.all_cons, Bool.and_eq_true] at h; exact h.2
    have hkey : (dashdash ++ k) ≠ [] ∧ ∀ c ∈ dashdash ++ k, isWS c = false := by
      constructor
      · simp [dashdash]
      · intro c hc
        rcases List.mem_append.mp hc with hcd | hck
        · have : c = '-' := by simpa [dashdash] using hcd
          subst this
          decide
        · have hkc : k.all (fun c => isWS c = false) = true := by
            simp only [flagOk, Bool.and_eq_true] at hf
            exact hf.1
          simpa using List.all_eq_true.mp hkc c hck
    cases v with
    | some w =>
      simp only [flagTokens] at ht
      rcases List.mem_cons.mp ht with rfl | ht2
      · exact hkey
      · rcases List.mem_cons.mp ht2 with rfl | ht3
        · have hw : tokOkB t = true := by
            simp only [flagOk, Bool.and_eq_true] at hf
            exact hf.2.1
          simp only [tokOkB, Bool.and_eq_true] at hw
          refine ⟨by simpa using hw.1, ?_⟩
          intro c hc
          simpa using List.all_eq_true.mp hw.2 c hc
        · exact ih hfs t ht3
    | none =>
      simp only [flagTokens] at ht
      rcases List.mem_cons.mp ht with rfl | ht2
      · exact hkey
      · exact ih hfs t ht2

/-- Scanning a run of non-whitespace characters just extends the
current word accumulator. -/
theorem fieldsAux_word : ∀ (t : Str), (∀ c ∈ t, isWS c = false) →
    ∀ (s acc : Str), fieldsAux (t ++ s) acc = fieldsAux s (acc ++ t) := by
  intro t
  induction t with
  | nil => intro _ s acc; simp
  | cons c t2 ih =>
    intro ht s acc
    have hc : isWS c = false := ht c (List.mem_cons_self c t2)
    have ht2 : ∀ x ∈ t2, isWS x = false := fun x hx => ht x (List.mem_cons_of_mem c hx)
    calc fieldsAux (c :: t2 ++ s) acc
        = fieldsAux (t2 ++ s) (acc ++ [c]) := by simp [fieldsAux, hc]
      _ = fieldsAux s ((acc ++ [c]) ++ t2) := ih ht2 s (acc ++ [c])
      _ = fieldsAux s (acc ++ (c :: t2)) := by simp

/-- Fields of a space-joined list of non-empty whitespace-free tokens
are exactly those tokens. -/
theorem fieldsS_join : ∀ (ts : List Str),
    (∀ t ∈ ts, t ≠ [] ∧ ∀ c ∈ t, isWS c = false) →
    fieldsS (joinSpace ts) = ts := by
  intro ts
  induction ts with
  | nil => intro _; rfl
  | cons t rest ih =>
    intro h
    have ht := h t (List.mem_cons_self t rest)
    cases rest with
    | nil =>
      show fieldsAux (joinSpace [t]) [] = [t]
      have h2 := fieldsAux_word t ht.2 [] []
      simp only [List.append_nil, List.nil_append] at h2
      show fieldsAux t [] = [t]
      rw [h2]
      simp [fieldsAux, ht.1]
    | cons r rs =>
      show fieldsAux (t ++ ' ' :: joinSpace (r :: rs)) [] = t :: r :: rs
      rw [fieldsAux_word t ht.2]
      simp only [List.nil_append]
      have hih := ih (fun x hx => h x (List.mem_cons_of_mem t hx))
      unfold fieldsS at hih
      simp [fieldsAux, ht.1, hih, show isWS ' ' = true from rfl]

/-- Trimming is the identity on a string with non-whitespace first and
last characters. -/
theorem trimSpace_sandwich (c d : Char) (mid : Str) (hc : isWS c = false) (hd : isWS d = false) :
    trimSpace (c :: (mid ++ [d])) = c :: (mid ++ [d]) := by
  unfold trimSpace
  have h1 : (c :: (mid ++ [d])).dropWhile isWS = c :: (mid ++ [d]) := by
    simp [List.dropWhile_cons, hc]
  rw [h1]
  have h2 : (c :: (mid ++ [d])).reverse = d :: (mid.reverse ++ [c]) := by
    simp
  rw [h2]
  have h3 : (d :: (mid.reverse ++ [c])).dropWhile isWS = d :: (mid.reverse ++ [c]) := by
    simp [List.dropWhile_cons, hd]
  rw [h3]
  simp

/-- A space-join of well-formed tokens ends in a non-whitespace
character. -/
theorem joinSpace_ends : ∀ (ts : List Str),
    (∀ t ∈ ts, t ≠ [] ∧ ∀ c ∈ t, isWS c = false) → ts ≠ [] →
    ∃ mid d, joinSpace ts = mid ++ [d] ∧ isWS d = false := by
  intro ts
  induction ts with
  | nil => intro _ h; exact absurd rfl h
  | cons t rest ih =>
    intro h _
    have ht := h t (List.mem_cons_self t rest)
    cases rest with
    | nil =>
      rcases List.eq_nil_or_concat t with he | ⟨l, d, he⟩
      · exact absurd he ht.1
      · subst he
        refine ⟨l, d, by simp [List.concat_eq_append, joinSpace], ?_⟩
        exact ht.2 d (by simp [List.concat_eq_append])
    | cons r rs =>
      obtain ⟨mid, d, hj, hd⟩ := ih (fun x hx => h x (List.mem_cons_of_mem t hx)) (by simp)
      refine ⟨t ++ ' ' :: mid, d, ?_, hd⟩
      show t ++ ' ' :: joinSpace (r :: rs) = (t ++ ' ' :: mid) ++ [d]
      rw [hj]
      simp

/-- The parser's token list for a well-formed raw input
"az {svc} {op} [--k v]*" is exactly svc :: op :: flag tokens. -/
theorem tokensOf_mkInput (svc op : Str) (flags : List (Str × Option Str))
    (hsvc : tokOkB svc = true) (hop : tokOkB op = true) (hfl : flags.all flagOk = true) :
    tokensOf (mkInput svc op flags) = svc :: op :: flagTokens flags := by
  have hT : ∀ t ∈ (svc :: op :: flagTokens flags), t ≠ [] ∧ ∀ c ∈ t, isWS c = false := by
    intro t ht
    rcases List.mem_cons.mp ht with rfl | ht2
    · simp only [tokOkB, Bool.and_eq_true] at hsvc
      refine ⟨by simpa using hsvc.1, ?_⟩
      intro c hc
      simpa using List.all_eq_true.mp hsvc.2 c hc
    · rcases List.mem_cons.mp ht2 with rfl | ht3
      · simp only [tokOkB, Bool.and_eq_true] at hop
        refine ⟨by simpa using hop.1, ?_⟩
        intro c hc
        simpa using List.all_eq_true.mp hop.2 c hc
      · exact flagTokens_tokens flags hfl t ht3
  obtain ⟨mid, d, hj, hd⟩ := joinSpace_ends (svc :: op :: flagTokens flags) hT (by simp)
  have h1 : trimSpace (mkInput svc op flags) = mkInput svc op flags := by
    unfold mkInput
    rw [hj]
    rw [show "az ".toList ++ (mid ++ [d]) = 'a' :: (('z' :: ' ' :: mid) ++ [d]) from by simp]
    exact trimSpace_sandwich 'a' d ('z' :: ' ' :: mid) (by decide) hd
  have h2 : startsWithS (mkInput svc op flags) "az ".toList = true := by
    unfold mkInput
    exact startsWithS_append_self "az ".toList _
  unfold tokensOf
  dsimp only
  rw [h1, if_pos h2]
  rw [show (mkInput svc op flags).drop 3 = joinSpace (svc :: op :: flagTokens flags) from rfl]
  exact fieldsS_join _ hT

/-- One step of the Go parameter loop: "--k" followed by a value token
not starting with "--" binds that value. -/
theorem parseParams_key_some (k w : Str) (rest : List Str) (m : List (Str × Str))
    (hw : startsWithS w dashdash = false) :
    parseParams ((dashdash ++ k) :: w :: rest) m = parseParams rest (insertP m k w) := by
  rw [parseParams.eq_def]
  dsimp only
  rw [startsWithS_append_self, if_pos rfl, hw, if_pos rfl]
  rfl

/-- One step of the Go parameter loop: a trailing "--k" binds the
empty value. -/
theorem parseParams_key_none_end (k : Str) (m : List (Str × Str)) :
    parseParams [dashdash ++ k] m = insertP m k [] := by
  rw [parseParams.eq_def]
  dsimp only
  rw [startsWithS_append_self, if_pos rfl]
  rfl

/-- One step of the Go parameter loop: "--k" followed by another flag
token binds the empty value and continues at that token. -/
theorem parseParams_key_none_next (k k2 : Str) (rest : List Str) (m : List (Str × Str)) :
    parseParams ((dashdash ++ k) :: (dashdash ++ k2) :: rest) m =
      parseParams ((dashdash ++ k2) :: rest) (insertP m k []) := by
  rw [parseParams.eq_def]
  dsimp only
  rw [startsWithS_append_self, if_pos rfl, startsWithS_append_self]
  rw [if_neg (by simp)]
  rfl

/-- The Go parameter loop over the rendered flag tokens performs one
map write per flag, in order. -/
theorem parseParams_flagTokens : ∀ (flags : List (Str × Option Str)) (m : List (Str × Str)),
    flags.all flagOk = true →
    parseParams (flagTokens flags) m = flags.foldl insertFlag m := by
  intro flags
  induction flags with
  | nil => intro m _; rfl
  | cons f fs ih =>
    intro m h
    rcases f with ⟨k, v⟩
    have hf : flagOk (k, v) = true := by
      simp only [List.all_cons, Bool.and_eq_true] at h; exact h.1
    have hfs : fs.all flagOk = true := by
      simp only [List.all_cons, Bool.and_eq_true] at h; exact h.2
    cases v with
    | some w =>
      have hw : startsWithS w dashdash = false := by
        simp only [flagOk, Bool.and_eq_true] at hf
        simpa using hf.2.2
      calc parseParams ((dashdash ++ k) :: w :: flagTokens fs) m
          = parseParams (flagTokens fs) (insertP m k w) :=
            parseParams_key_some k w (flagTokens fs) m hw
        _ = fs.foldl insertFlag (insertP m k w) := ih _ hfs
        _ = ((k, some w) :: fs).foldl insertFlag m := rfl
    | none =>
      rcases flagTokens_shape fs with h0 | ⟨k2, tt, h0⟩
      · have hfs0 : fs = [] := flagTokens_eq_nil fs h0
        subst hfs0
        show parseParams ((dashdash ++ k) :: []) m = _
        rw [parseParams_key_none_end k m]
        rfl
      · calc parseParams ((dashdash ++ k) :: flagTokens fs) m
            = parseParams (flagTokens fs) (insertP m k []) := by
              rw [h0, parseParams_key_none_next k k2 tt m]
          _ = fs.foldl insertFlag (insertP m k []) := ih _ hfs
          _ = ((k, none) :: fs).foldl insertFlag m := rfl

/-- find? distributes over append, first list first. -/
theorem find?_append_my {α : Type} (l1 l2 : List α) (p : α → Bool) :
    (l1 ++ l2).find? p =
      match l1.find? p with
      | some x => some x
      | none => l2.find? p := by
  induction l1 with
  | nil => rfl
  | cons a t ih =>
    cases hpa : p a <;> simp [List.find?_cons, hpa, ih]

/-- One-step unfolding of the last-occurrence value of a key in a flag
list. -/
theorem lastVal_cons (f : Str × Option Str) (fs : List (Str × Option Str)) (k : Str) :
    lastVal (f :: fs) k =
      match lastVal fs k with
      | some v => some v
      | none => if f.1 = k then some (f.2.getD []) else none := by
  unfold lastVal
  rw [List.reverse_cons, find?_append_my]
  cases hfind : (fs.reverse.find? (fun g => g.1 = k)) with
  | some x => simp [hfind]
  | none =>
    simp only [hfind, Option.map_none']
    by_cases hk : f.1 = k <;> simp [List.find?_cons, hk]

/-- Looking a key up after folding in the flags returns the last
occurrence's value, falling back to the initial map. -/
theorem lookupP_foldl_insertFlag : ∀ (flags : List (Str × Option Str)) (m : List (Str × Str)) (k : Str),
    lookupP (flags.foldl insertFlag m) k =
      match lastVal flags k with
      | some v => some v
      | none => lookupP m k := by
  intro flags
  induction flags with
  | nil => intro m k; rfl
  | cons f fs ih =>
    intro m k
    rw [List.foldl_cons, ih (insertFlag m f) k, lastVal_cons]
    have hins : lookupP (insertFlag m f) k = if k = f.1 then some (f.2.getD []) else lookupP m k := by
      unfold insertFlag
      exact lookupP_insertP m f.1 (f.2.getD []) k
    rw [hins]
    cases lastVal fs k with
    | some v => rfl
    | none =>
      by_cases hk : k = f.1
      · simp [hk]
      · have hk2 : ¬ (f.1 = k) := fun hh => hk hh.symm
        simp [hk, hk2]

/-- Claim C3: the parser fails exactly when fewer than two tokens
remain after trimming and stripping a leading "az "; on every
well-formed input "az {service} {operation} [--k v]*" it returns the
parameter map produced by one write per flag (value "" when absent),
whose lookups realize exactly the last-occurrence-wins pairs. -/
theorem claim_C3 :
    (∀ input : Str,
      (∃ e, ParseAzureCommand input = Except.error e) ↔ (tokensOf input).length < 2) ∧
    (∀ (svc op : Str) (flags : List (Str × Option Str)),
      tokOkB svc = true → tokOkB op = true → flags.all flagOk = true →
      ParseAzureCommand (mkInput svc op flags) =
        Except.ok ⟨svc, op, flags.foldl insertFlag [], svc ++ ' ' :: op⟩ ∧
      ∀ k, lookupP (flags.foldl insertFlag []) k = lastVal flags k) := by
  constructor
  · intro input
    constructor
    · rintro ⟨e, he⟩
      by_contra hlen
      simp only [ParseAzureCommand] at he
      rw [if_neg hlen] at he
      split at he <;> exact Except.noConfusion he
    · intro hlen
      exact ⟨_, by simp only [ParseAzureCommand]; rw [if_pos hlen]⟩
  · intro svc op flags hsvc hop hfl
    have htok := tokensOf_mkInput svc op flags hsvc hop hfl
    constructor
    · simp only [ParseAzureCommand]
      rw [htok]
      rcases flagTokens_shape flags with h0 | ⟨k0, t0, h0⟩
      · rw [h0]
        have hfs0 : flags = [] := flagTokens_eq_nil flags h0
        subst hfs0
        have hc1 : ¬ ([svc, op].length < 2) := by simp
        rw [if_neg hc1]
        have hc2 : ¬ (2 < [svc, op].length ∧
            startsWithS ([svc, op].getD 2 []) dashdash = false) := by simp
        rw [if_neg hc2]
        rfl
      · rw [h0]
        have hc1 : ¬ ((svc :: op :: (dashdash ++ k0) :: t0).length < 2) := by simp
        rw [if_neg hc1]
        have hc2 : ¬ (2 < (svc :: op :: (dashdash ++ k0) :: t0).length ∧
            startsWithS ((svc :: op :: (dashdash ++ k0) :: t0).getD 2 []) dashdash = false) := by
          intro hcon
          have h3 := hcon.2
          rw [show (svc :: op :: (dashdash ++ k0) :: t0).getD 2 [] = dashdash ++ k0 from rfl,
            startsWithS_append_self] at h3
          exact Bool.noConfusion h3
        rw [if_neg hc2]
        rw [show (svc :: op :: (dashdash ++ k0) :: t0).drop 2 = (dashdash ++ k0) :: t0 from rfl,
          ← h0, parseParams_flagTokens flags [] hfl]
        rfl
    · intro k
      rw [lookupP_foldl_insertFlag flags [] k]
      cases h : lastVal flags k <;> simp [h, lookupP]

/-- Witness for C3 at "az group create --name myRG --location eastus". -/
theorem claim_C3_witness :
    ParseAzureCommand
        (mkInput "group".toList "create".toList
          [("name".toList, some "myRG".toList), ("location".toList, some "eastus".toList)]) =
      Except.ok ⟨"group".toList, "create".toList,
        ([("name".toList, some "myRG".toList),
          ("location".toList, some "eastus".toList)].foldl insertFlag []),
        "group".toList ++ ' ' :: "create".toList⟩ ∧
    lookupP
        ([("name".toList, some "myRG".toList),
          ("location".toList, some "eastus".toList)].foldl insertFlag []) "name".toList =
      lastVal [("name".toList, some "myRG".toList),
        ("location".toList, some "eastus".toList)] "name".toList :=
  ⟨(claim_C3.2 "group".toList "create".toList
      [("name".toList, some "myRG".toList), ("location".toList, some "eastus".toList)]
      (by decide) (by decide) (by decide)).1,
   (claim_C3.2 "group".toList "create".toList
      [("name".toList, some "myRG".toList), ("location".toList, some "eastus".toList)]
      (by decide) (by decide) (by decide)).2 "name".toList⟩

/-- Claim C2: whenever the token list has a third token not starting
with "--", the parser takes the compound-service branch: service is
the two-word span token[0..1] and operation is token[2]; in
particular "az storage account create --name x" parses to
service="storage account", operation="create". -/
theorem claim_C2 :
    (∀ input : Str, 3 ≤ (tokensOf input).length →
      startsWithS ((tokensOf input).getD 2 []) dashdash = false →
      ∃ cmd, ParseAzureCommand input = Except.ok cmd ∧
        cmd.service = (tokensOf input).getD 0 [] ++ ' ' :: (tokensOf input).getD 1 [] ∧
        cmd.operation = (tokensOf input).getD 2 []) ∧
    (∃ cmd, ParseAzureCommand "az storage account create --name x".toList = Except.ok cmd ∧
      cmd.service = "storage account".toList ∧ cmd.operation = "create".toList) := by
  constructor
  · intro input h3 hd
    simp only [ParseAzureCommand]
    have hc1 : ¬ ((tokensOf input).length < 2) := by omega
    rw [if_neg hc1, if_pos ⟨by omega, hd⟩]
    exact ⟨_, rfl, rfl, rfl⟩
  · exact ⟨⟨"storage account".toList, "create".toList,
      [("name".toList, "x".toList)], "storage account create".toList⟩, by decide, rfl, rfl⟩

/-- Witness for the universal part of C2 at
"az storage account create --name x". -/
theorem claim_C2_witness :
    ∃ cmd, ParseAzureCommand "az storage account create --name x".toList = Except.ok cmd ∧
      cmd.service = (tokensOf "az storage account create --name x".toList).getD 0 [] ++
        ' ' :: (tokensOf "az storage account create --name x".toList).getD 1 [] ∧
      cmd.operation = (tokensOf "az storage account create --name x".toList).getD 2 [] :=
  claim_C2.1 "az storage account create --name x".toList (by decide) (by decide)

/-- Witness for C7 at the parsed "vm stop" command. -/
theorem claim_C7_witness :
    isDataPlaneOperation cmdVmStop = true ↔ 2 ≤ (fieldsS cmdVmStop.service).length :=
  claim_C7 cmdVmStop

/-- Witness for C10 at a one-entry manager. -/
theorem claim_C10_witness :
    (Manager.GetPermissions mgrVmStartX cmdVmStart).2 = mgrVmStartX ∧
    lookupP (Manager.CachePermission mgrVmStartX "vm stop".toList ["p".toList]).mappings.commands
        "vm stop".toList =
      (if ("vm stop".toList : Str) = "vm stop".toList then some ["p".toList]
       else lookupP mgrVmStartX.mappings.commands "vm stop".toList) :=
  ⟨claim_C10.1 mgrVmStartX cmdVmStart,
   claim_C10.2 mgrVmStartX "vm stop".toList ["p".toList] "vm stop".toList⟩

/-- Witness for C6 (amended) at the Microsoft.Compute test catalog. -/
theorem claim_C6_witness : (collectExactMatches cmdVmStop catC6).Nodup :=
  claim_C6 cmdVmStop catC6
